import Mathlib

/-!
Verification development for the offline codebase-search engine.

Each Python construct named in a doc comment below is embedded as an
executable Lean definition; theorems at the end of the file settle the
specification claims against these definitions.
-/

namespace Spec2Proof

/-! String helpers modelling Python string primitives (`str.startswith`,
the `in` substring operator, on lists of characters). -/

/-- Character-list version of Python `s.startswith(p)`: does the second list
occur at the head of the first? -/
def charsStartWith : List Char → List Char → Bool
  | _, [] => true
  | [], _ :: _ => false
  | h :: hs, n :: ns => h == n && charsStartWith hs ns

/-- Character-list version of Python `needle in hay` (contiguous substring). -/
def charsContain : List Char → List Char → Bool
  | [], ns => charsStartWith [] ns
  | h :: hs, ns => charsStartWith (h :: hs) ns || charsContain hs ns

/-- Python `s.startswith(p)`. -/
def pyStartsWith (s p : String) : Bool := charsStartWith s.data p.data

/-- Python `needle in hay` on strings. -/
def pyContains (hay needle : String) : Bool := charsContain hay.data needle.data

/-- Python `s.endswith(p)`. -/
def pyEndsWith (s p : String) : Bool := charsStartWith s.data.reverse p.data.reverse

/-- Python `s.upper()` on ASCII strings, built structurally so it reduces
in the kernel. -/
def pyToUpper (s : String) : String := String.mk (s.data.map Char.toUpper)

/-- Python `s.lower()` on ASCII strings, built structurally so it reduces
in the kernel. -/
def pyToLower (s : String) : String := String.mk (s.data.map Char.toLower)

/-! Model of the external `re` library used by the source
(`matching_strategies.py` and `cli_filters.py` call `re.compile` /
`re.search`). Pattern validity is modelled executably as balanced
parentheses: a representative decidable stand-in for "syntactically valid
regular expression". The search semantics of a compiled pattern is
abstracted as literal substring containment; no claim in this development
depends on the matching semantics of a valid pattern, only on which
patterns compile and on what happens when compilation fails. -/

/-- Validity model for `re.compile`: parenthesis depth never goes negative and
ends at zero. -/
def re_valid (p : String) : Bool :=
  (p.data.foldl
    (fun (st : Option Nat) c =>
      match st with
      | none => none
      | some d =>
        if c = '(' then some (d + 1)
        else if c = ')' then (if d = 0 then none else some (d - 1))
        else some d)
    (some 0)) == some 0

/-- Model of `re.compile(p)`: succeeds exactly on valid patterns, and the
compiled object is represented by the pattern text itself. -/
def re_compile (p : String) : Option String :=
  if re_valid p then some p else none

/-- Model of `compiled.search(s)` for a compiled pattern. -/
def re_search (compiled s : String) : Bool := pyContains s compiled

/-! Model of the external similarity libraries (`difflib.SequenceMatcher` /
`Levenshtein.ratio` in `matching_strategies.py`, `thefuzz.fuzz.ratio` in
`cli_filters.py`). The ratio is modelled as the normalised longest common
subsequence: 2*lcs/(len a + len b). No claim depends on the exact ratio
values, only on the shape `similarity >= threshold`. -/

/-- Longest common subsequence length of two character lists. -/
def lcsLen : List Char → List Char → Nat
  | [], _ => 0
  | _ :: _, [] => 0
  | a :: as, b :: bs =>
    if a = b then lcsLen as bs + 1
    else max (lcsLen (a :: as) bs) (lcsLen as (b :: bs))
termination_by as bs => as.length + bs.length

/-- Similarity ratio in [0,1] modelling `difflib`/`Levenshtein` ratio. -/
def py_similarity (a b : String) : Rat :=
  if a.data.length + b.data.length = 0 then 1
  else (2 * (lcsLen a.data b.data : Rat)) / ((a.data.length : Rat) + (b.data.length : Rat))

/-- Similarity on the 0-100 integer scale modelling `thefuzz.fuzz.ratio`. -/
def py_fuzz_ratio (a b : String) : Nat :=
  if a.data.length + b.data.length = 0 then 100
  else (200 * lcsLen a.data b.data) / (a.data.length + b.data.length)

/-! Element model for the query layer. The optimizer, execution plan and
filters in `src/index/query/` are duck-typed over any object carrying the
fields they read through `getattr`; the model fixes the attributes that the
fields of the indexes and the claims exercise. An attribute of value `none`
models a Python attribute holding `None`. The `eid` field stands for
object identity, so distinct index entries stay distinct. -/

structure Elem where
  eid : Nat
  name : Option String := none
  decorator : Option String := none
  doc : Option String := none
  role : Option String := none
  file_path : Option String := none
  module : Option String := none
deriving DecidableEq

/-- Python `getattr(item, field_name, <absent>)`: outer `none` means the
attribute does not exist (`hasattr` is false), `some none` means it exists
and holds `None`. -/
def Elem.getattr (e : Elem) : String → Option (Option String)
  | "name" => some e.name
  | "decorator" => some e.decorator
  | "doc" => some e.doc
  | "role" => some e.role
  | "file_path" => some e.file_path
  | "module" => some e.module
  | _ => none

/-! Matching strategies, translated from
`src/index/query/matching_strategies.py`. The Python classes
`ExactMatchingStrategy`, `StartsWithStrategy`, `RegexStrategy`,
`FuzzyStrategy(threshold)` become the constructors below; `FuzzyStrategy`
carries its threshold, the others are stateless. -/

inductive Strategy
  | exactM
  | startsWithM
  | regexM
  | fuzzyM (threshold : Rat)
deriving DecidableEq

/-- Translated from `RegexStrategy.matches`: `re.search(str(pattern),
str(field_value))` inside `try/except (re.error, TypeError)` returning
`False`; a pattern that fails to compile therefore yields `false` rather
than an exception. -/
def regexStrategyMatches (field_value pattern : String) : Bool :=
  match re_compile pattern with
  | none => false
  | some r => re_search r field_value

/-- Translated from the `matches(field_value, pattern)` methods of
`matching_strategies.py`, with both arguments already strings (the
source applies `str()` to both). -/
def strategyMatches : Strategy → String → String → Bool
  | .exactM, fv, pat => fv == pat
  | .startsWithM, fv, pat => pyStartsWith fv pat
  | .regexM, fv, pat => regexStrategyMatches fv pat
  | .fuzzyM t, fv, pat => decide (t ≤ py_similarity (pyToLower fv) (pyToLower pat))

/-- Component record of a `FieldFilter` from
`src/index/query/field_filter.py`: field name, comparison value, strategy. -/
structure FieldF where
  field_name : String
  value : String
  strategy : Strategy
deriving DecidableEq

/-- Translated from `FieldFilter.matches` (`field_filter.py`): missing
attribute fails, attribute holding `None` fails, otherwise the strategy is
applied (its exceptions are swallowed to `False`; the modelled strategies
are total). -/
def fieldFilterMatches (f : FieldF) (e : Elem) : Bool :=
  match e.getattr f.field_name with
  | none => false
  | some none => false
  | some (some fv) => strategyMatches f.strategy fv f.value

/-! Filter expression trees, translated from `src/index/query/filters.py`
(`AndFilter`, `OrFilter`, `NotFilter`) over `FieldFilter` leaves. -/

inductive PyFilter
  | field (f : FieldF)
  | and (filters : List PyFilter)
  | or (filters : List PyFilter)
  | not (sub : PyFilter)

mutual

/-- Translated from the `matches` methods of `filters.py`: `AndFilter` is
`all(...)`, `OrFilter` is `any(...)`, `NotFilter` negates. -/
def PyFilter.matches : PyFilter → Elem → Bool
  | .field f, e => fieldFilterMatches f e
  | .and fs, e => PyFilter.matchesAll fs e
  | .or fs, e => PyFilter.matchesAny fs e
  | .not f, e => !(PyFilter.matches f e)

/-- Python `all(f.matches(item) for f in self.filters)`. -/
def PyFilter.matchesAll : List PyFilter → Elem → Bool
  | [], _ => true
  | f :: fs, e => PyFilter.matches f e && PyFilter.matchesAll fs e

/-- Python `any(f.matches(item) for f in self.filters)`. -/
def PyFilter.matchesAny : List PyFilter → Elem → Bool
  | [], _ => false
  | f :: fs, e => PyFilter.matches f e || PyFilter.matchesAny fs e

end

/-! Index object consumed by `ExecutionPlan.execute` and
`QueryPlanOptimizer`. Both are duck-typed over any object exposing
`_elements` (id -> element) and the per-field lookup dicts mapping a field
value to a collection of elements; the model fixes those attributes as
fields. Python dicts are modelled as association lists. -/

/-- Association-list lookup modelling Python dict access (`m[k]` guarded by
`k in m`); dict keys are unique, so the first hit is the entry. -/
def dget {κ α : Type} [DecidableEq κ] : List (κ × α) → κ → Option α
  | [], _ => none
  | p :: tl, k => if p.1 = k then some p.2 else dget tl k

/-- Python dict assignment `m[k] = v`: update in place keeping the key's
insertion position, or append a new key at the end. -/
def dinsert {κ α : Type} [DecidableEq κ] (m : List (κ × α)) (k : κ) (v : α) : List (κ × α) :=
  if (dget m k).isSome then m.map (fun p => if p.1 = k then (k, v) else p)
  else m ++ [(k, v)]

structure QIndex where
  _elements : List (String × Elem)
  role_index : List (String × List Elem) := []
  decorator_index : List (String × List Elem) := []
  type_index : List (String × List Elem) := []
  module_index : List (String × List Elem) := []
  name_prefix_index : List (String × List Elem) := []
  path_prefix_index : List (String × List Elem) := []

/-- Translated from `ExecutionPlan._get_index_for_field`. -/
def getIndexForField (idx : QIndex) : String → Option (List (String × List Elem))
  | "role" => some idx.role_index
  | "decorator" => some idx.decorator_index
  | "type" => some idx.type_index
  | "module" => some idx.module_index
  | _ => none

/-- Translated from `ExecutionPlan._get_prefix_index_for_field`. -/
def getPrefixIndexForField (idx : QIndex) : String → Option (List (String × List Elem))
  | "name" => some idx.name_prefix_index
  | "file_path" => some idx.path_prefix_index
  | _ => none

/-- Translated from the two structurally identical lookup loops of
`ExecutionPlan.execute`: for each lookup, when the field has a dict in the
index and the dict is non-empty and contains the lookup value
(`if field_index and lookup.value in field_index`), the candidate set is
intersected with that entry; otherwise the candidates pass unchanged.
After each lookup, an empty candidate set returns `[]` immediately. -/
def intersectLookups (idx : QIndex)
    (getIdx : QIndex → String → Option (List (String × List Elem))) :
    List FieldF → List Elem → List Elem
  | [], cands => cands
  | l :: ls, cands =>
    let cands' :=
      match getIdx idx l.field_name with
      | none => cands
      | some m =>
        match dget m l.value with
        | none => cands
        | some vs => cands.filter (fun e => vs.contains e)
    if cands' = [] then [] else intersectLookups idx getIdx ls cands'

/-- Translated from the residual loop of `ExecutionPlan.execute`:
`candidates = {item for item in candidates if filter_.matches(item)}`, with
an immediate empty return the instant the candidate set becomes empty. -/
def applyResiduals : List PyFilter → List Elem → List Elem
  | [], cands => cands
  | f :: fs, cands =>
    let c' := cands.filter (fun e => f.matches e)
    if c' = [] then [] else applyResiduals fs c'

/-- Translated from `src/index/query/execution_plan.py`: the plan record
holding indexed lookups, prefix lookups and residual filters. -/
structure ExecutionPlan where
  indexed_lookups : List FieldF := []
  prefix_lookups : List FieldF := []
  remaining_filters : List PyFilter := []

/-- Translated from `ExecutionPlan.execute`: start from
`set(index._elements.values())`, intersect with each indexed lookup, then
each prefix lookup, then filter through the residual filters in order,
short-circuiting to `[]` the instant candidates become empty. Python sets
of elements are modelled as duplicate-free lists. -/
def ExecutionPlan.execute (p : ExecutionPlan) (idx : QIndex) : List Elem :=
  let candidates := (idx._elements.map Prod.snd).eraseDups
  let c1 := intersectLookups idx getIndexForField p.indexed_lookups candidates
  let c2 := intersectLookups idx getPrefixIndexForField p.prefix_lookups c1
  applyResiduals p.remaining_filters c2

/-! Instrumented execution for the short-circuit claim: the residual loop is
re-run with each residual filter abstracted to its `matches` function, and
every single `matches` invocation is logged as a pair (position of the
residual filter in the plan, element it was invoked on). The first
component agrees with `applyResiduals` (proved below). -/

/-- Instrumented residual loop: logs each `matches` call. -/
def applyResidualsInstr : List (Elem → Bool) → List Elem → Nat → List Elem × List (Nat × Elem)
  | [], cands, _ => (cands, [])
  | p :: ps, cands, i =>
    let calls := cands.map (fun e => (i, e))
    let c' := cands.filter p
    if c' = [] then ([], calls)
    else
      let r := applyResidualsInstr ps c' (i + 1)
      (r.1, calls ++ r.2)

/-- Instrumented `ExecutionPlan.execute`: same lookup stages (which invoke
no residual `matches`), then the instrumented residual loop. -/
def ExecutionPlan.executeInstr (p : ExecutionPlan) (idx : QIndex) :
    List Elem × List (Nat × Elem) :=
  let candidates := (idx._elements.map Prod.snd).eraseDups
  let c1 := intersectLookups idx getIndexForField p.indexed_lookups candidates
  let c2 := intersectLookups idx getPrefixIndexForField p.prefix_lookups c1
  applyResidualsInstr (p.remaining_filters.map PyFilter.matches) c2 0

/-- Candidate set entering residual filter number `k`, ignoring the
short-circuit returns (filtering an empty list stays empty, so this agrees
with the short-circuiting loop on the value level). -/
def residCandsAt (ps : List (Elem → Bool)) (cands : List Elem) (k : Nat) : List Elem :=
  (ps.take k).foldl (fun c p => c.filter p) cands

/-! Query plan optimizer, translated from
`src/index/query/query_plan_optimizer.py`. -/

/-- Key set of `QueryPlanOptimizer.indexable_fields`: the dict literal is
built with `getattr(..., {})` defaults, so its keys are always exactly
`decorator` and `doc` whatever the index object provides. -/
def indexable_field_names : List String := ["decorator", "doc"]

/-- Key set of `QueryPlanOptimizer.prefix_indexable`. -/
def prefix_indexable_field_names : List String := ["name", "file_path"]

mutual

/-- Translated from `QueryPlanOptimizer._extract_indexed_lookups`: a
`FieldFilter` on an indexable field with the exact strategy is collected;
`AndFilter` and `OrFilter` are both recursed into (the `isinstance` test
covers both classes); anything else contributes nothing. -/
def extractIndexedLookups : PyFilter → List FieldF
  | .field f =>
    if f.field_name ∈ indexable_field_names ∧ f.strategy = Strategy.exactM then [f] else []
  | .and fs => extractIndexedLookupsList fs
  | .or fs => extractIndexedLookupsList fs
  | .not _ => []

/-- Child loop of `_extract_indexed_lookups`. -/
def extractIndexedLookupsList : List PyFilter → List FieldF
  | [] => []
  | f :: fs => extractIndexedLookups f ++ extractIndexedLookupsList fs

end

mutual

/-- Translated from `QueryPlanOptimizer._extract_prefix_lookups`. -/
def extractPrefixLookups : PyFilter → List FieldF
  | .field f =>
    if f.field_name ∈ prefix_indexable_field_names ∧ f.strategy = Strategy.startsWithM then [f]
    else []
  | .and fs => extractPrefixLookupsList fs
  | .or fs => extractPrefixLookupsList fs
  | .not _ => []

/-- Child loop of `_extract_prefix_lookups`. -/
def extractPrefixLookupsList : List PyFilter → List FieldF
  | [] => []
  | f :: fs => extractPrefixLookups f ++ extractPrefixLookupsList fs

end

mutual

/-- Translated from `QueryPlanOptimizer._extract_remaining_filters`: a
`FieldFilter` not already collected is kept, `AndFilter`/`OrFilter`
children are recursed into, and any other node (`NotFilter`) is kept whole.
The Python `optimized_set` membership test uses object identity; the model
compares structurally, which coincides on trees without duplicated leaves
(all inputs used by the theorems below). -/
def extractRemainingFilters (optimized : List FieldF) : PyFilter → List PyFilter
  | .field f => if f ∈ optimized then [] else [.field f]
  | .and fs => extractRemainingFiltersList optimized fs
  | .or fs => extractRemainingFiltersList optimized fs
  | .not s => [.not s]

/-- Child loop of `_extract_remaining_filters`. -/
def extractRemainingFiltersList (optimized : List FieldF) : List PyFilter → List PyFilter
  | [] => []
  | f :: fs => extractRemainingFilters optimized f ++ extractRemainingFiltersList optimized fs

end

/-- Translated from the `cost_estimator` closure of
`QueryPlanOptimizer._sort_by_estimated_cost`: a filter with a `strategy`
attribute is priced by its strategy, `AndFilter` costs 5, `OrFilter` 8,
and everything else (`NotFilter`) falls through to 5. -/
def costEstimator : PyFilter → Nat
  | .field f =>
    match f.strategy with
    | .exactM => 1
    | .startsWithM => 2
    | .regexM => 10
    | .fuzzyM _ => 20
  | .and _ => 5
  | .or _ => 8
  | .not _ => 5

/-- Translated from `QueryPlanOptimizer._sort_by_estimated_cost`: Python
`sorted` is a stable sort by the cost key, modelled by the stable
`List.insertionSort`. -/
def sortByEstimatedCost (fs : List PyFilter) : List PyFilter :=
  fs.insertionSort (fun a b => costEstimator a ≤ costEstimator b)

/-- Translated from `QueryPlanOptimizer.create_execution_plan`. -/
def create_execution_plan (F : PyFilter) : ExecutionPlan :=
  let il := extractIndexedLookups F
  let pl := extractPrefixLookups F
  let rem := extractRemainingFilters (il ++ pl) F
  { indexed_lookups := il
    prefix_lookups := pl
    remaining_filters := sortByEstimatedCost rem }

/-- Elements held by the index, as `ExecutionPlan.execute` collects them
(`set(index._elements.values())`). -/
def QIndex.universe (idx : QIndex) : List Elem :=
  (idx._elements.map Prod.snd).eraseDups

/-- Naive evaluation the optimizer is specified against: test
`F.matches(x)` for every element `x` held by the index. -/
def naiveQuery (F : PyFilter) (idx : QIndex) : List Elem :=
  idx.universe.filter (fun e => F.matches e)

/-! CLI filter layer, translated from `src/index/query/cli_filters.py`. -/

inductive MatchType
  | exactT
  | fuzzyT
  | regexT
  | startswithT
  | endswithT
  | containsT
deriving DecidableEq

structure AttributeFilter where
  attr_name : String
  value : String
  match_type : MatchType
  _regex : Option String
deriving DecidableEq

/-- Translated from `AttributeFilter.__init__`: `self._regex = None`, and
for `MatchType.REGEX` the pattern is compiled right away, a `re.error`
being re-raised as `ValueError` — construction of a regex filter with an
invalid pattern fails before any element is scanned. -/
def AttributeFilter.make (attr_name value : String) (match_type : MatchType) :
    Except String AttributeFilter :=
  match match_type with
  | .regexT =>
    match re_compile value with
    | some r => .ok ⟨attr_name, value, match_type, some r⟩
    | none => .error ("Invalid regex pattern: " ++ value)
  | mt => .ok ⟨attr_name, value, mt, none⟩

/-- Translated from `AttributeFilter.matches`: a missing attribute or an
attribute holding `None` never matches; the regex branch reuses the
pattern compiled at construction (`bool(self._regex and
self._regex.search(attr_str))`), so no compilation happens at match time. -/
def AttributeFilter.matches (f : AttributeFilter) (e : Elem) : Bool :=
  match e.getattr f.attr_name with
  | none => false
  | some none => false
  | some (some av) =>
    match f.match_type with
    | .exactT => av == f.value
    | .fuzzyT => decide (70 ≤ py_fuzz_ratio av f.value)
    | .regexT =>
      match f._regex with
      | none => false
      | some r => re_search r av
    | .startswithT => pyStartsWith av f.value
    | .endswithT => pyEndsWith av f.value
    | .containsT => pyContains av f.value

inductive CliFilter
  | attr (f : AttributeFilter)
  | comp (filters : List CliFilter) (op : String)

/-- Translated from `CompositeFilter.__init__`: the operator is upper-cased
and anything other than AND/OR is rejected at construction. -/
def CompositeFilter.make (filters : List CliFilter) (op : String) : Except String CliFilter :=
  let u := pyToUpper op
  if u = "AND" ∨ u = "OR" then .ok (.comp filters u)
  else .error ("Unsupported operator: " ++ u)

mutual

/-- Translated from `CompositeFilter.matches` and `AttributeFilter.matches`:
an empty child list returns `True` before the operator is even consulted;
otherwise AND is `all(...)` and OR is `any(...)`. A filter with any other
operator (unreachable through the constructor) falls off the end of the
Python method, returning `None`, modelled as `false` in boolean position. -/
def CliFilter.matches : CliFilter → Elem → Bool
  | .attr f, e => f.matches e
  | .comp fs op, e =>
    if fs.isEmpty then true
    else if op = "AND" then CliFilter.matchesAll fs e
    else if op = "OR" then CliFilter.matchesAny fs e
    else false

/-- Python `all(f.matches(element) for f in self.filters)`. -/
def CliFilter.matchesAll : List CliFilter → Elem → Bool
  | [], _ => true
  | f :: fs, e => CliFilter.matches f e && CliFilter.matchesAll fs e

/-- Python `any(f.matches(element) for f in self.filters)`. -/
def CliFilter.matchesAny : List CliFilter → Elem → Bool
  | [], _ => false
  | f :: fs, e => CliFilter.matches f e || CliFilter.matchesAny fs e

end

/-! Full-text search scoring, translated from `CodebaseIndex.search` in
`src/index/codebase_index.py`. The token index maps a token to the set of
element ids carrying it; the score dict is a `defaultdict(int)` modelled as
an insertion-ordered association list. -/

/-- Python `\w` word characters: alphanumeric or underscore. -/
def isWordChar (c : Char) : Bool := c.isAlphanum || c == '_'

/-- Accumulator pass for maximal word-character runs. -/
def wordRunsAux : List Char → List Char → List String
  | [], acc => if acc.isEmpty then [] else [String.mk acc.reverse]
  | c :: cs, acc =>
    if isWordChar c then wordRunsAux cs (c :: acc)
    else if acc.isEmpty then wordRunsAux cs []
    else String.mk acc.reverse :: wordRunsAux cs []

/-- Python `re.findall` of one-or-more word characters over a string. -/
def pyFindallWordRuns (s : String) : List String := wordRunsAux s.data []

/-- Translated from `CodebaseIndex.search`: `set(re.findall(word-runs,
query.lower()))`; the Python set is modelled as first-occurrence
deduplication (iteration order of a set is arbitrary, and every use below
is order-insensitive). -/
def pyTokens (query : String) : List String :=
  (pyFindallWordRuns (pyToLower query)).eraseDups

/-- Token index `_token_index`: token to list of element ids (a Python set,
so duplicate-free in faithful states). -/
abbrev TokenIndex : Type := List (String × List String)

/-- Python `scores[x] += n` on a `defaultdict(int)`. -/
def bump (sc : List (String × Nat)) (x : String) (n : Nat) : List (String × Nat) :=
  if (dget sc x).isSome then sc.map (fun p => if p.1 = x then (p.1, p.2 + n) else p)
  else sc ++ [(x, n)]

/-- Score bump for every element id of one token-index entry. -/
def bumpAll (sc : List (String × Nat)) (ids : List String) (n : Nat) : List (String × Nat) :=
  ids.foldl (fun s x => bump s x n) sc

/-- Inner loop of `CodebaseIndex.search` over all token-index entries: +2
for each indexed token the query token is a prefix of, otherwise +1 for
each indexed token containing it as a substring. -/
def scoreLoop (t : String) : TokenIndex → List (String × Nat) → List (String × Nat)
  | [], sc => sc
  | p :: tl, sc =>
    let sc' :=
      if pyStartsWith p.1 t then bumpAll sc p.2 2
      else if pyContains p.1 t then bumpAll sc p.2 1
      else sc
    scoreLoop t tl sc'

/-- Score contributions of one query token, translated from the body of the
token loop of `CodebaseIndex.search`: +3 per candidate on an exact hit in
the token index, then the prefix/substring pass over every indexed token. -/
def scoreToken (ti : TokenIndex) (sc : List (String × Nat)) (t : String) : List (String × Nat) :=
  let sc1 :=
    match dget ti t with
    | some ids => bumpAll sc ids 3
    | none => sc
  scoreLoop t ti sc1

/-- Translated from the scoring phase of `CodebaseIndex.search`: query
tokens of length at most two are skipped, the others accumulate into the
score dict. -/
def searchScores (query : String) (ti : TokenIndex) : List (String × Nat) :=
  (pyTokens query).foldl (fun sc t => if t.length ≤ 2 then sc else scoreToken ti sc t) []

/-- Score of one element id in the score dict (absent id scores zero). -/
def sval (sc : List (String × Nat)) (x : String) : Nat := (dget sc x).getD 0

/-- Translated from the ordering phase of `CodebaseIndex.search`:
`sorted(scores.keys(), key=score, reverse=True)`, a stable descending sort
modelled by the stable insertion sort. -/
def searchSortedIds (query : String) (ti : TokenIndex) : List String :=
  let sc := searchScores query ti
  (sc.map Prod.fst).insertionSort (fun a b => sval sc b ≤ sval sc a)

/-- Per-(query token, indexed token) score the frozen claim asserts:
exactly +3 on equality, +2 on strict prefix, +1 on substring-not-prefix. -/
def claimPairScore (t it : String) : Nat :=
  if it = t then 3
  else if pyStartsWith it t then 2
  else if pyContains it t then 1
  else 0

/-- Per-(query token, indexed token) score the code actually assigns: an
equal token receives the +3 exact bonus and also +2 from the prefix branch
(every token is a prefix of itself), totalling +5. -/
def codePairScore (t it : String) : Nat :=
  if it = t then 5
  else if pyStartsWith it t then 2
  else if pyContains it t then 1
  else 0

/-- Total score of element id `x` under a per-pair scoring rule: sum over
query tokens longer than two characters and token-index entries listing
`x`. -/
def pairScoreSum (pair : String → String → Nat) (ts : List String) (ti : TokenIndex)
    (x : String) : Nat :=
  (ts.filter (fun t => 2 < t.length)).foldl
    (fun acc t =>
      acc + (ti.foldl (fun a p => a + (if x ∈ p.2 then pair t p.1 else 0)) 0))
    0

/-- Contribution of the prefix/substring pass of the token loop for one
indexed token: an equal token falls into the prefix branch and scores 2. -/
def loopPair (t it : String) : Nat :=
  if pyStartsWith it t then 2 else if pyContains it t then 1 else 0

/-- Contribution of one token-index entry to one element's score under a
per-pair rule. -/
def entryContrib (pair : String → String → Nat) (t y : String)
    (p : String × List String) : Nat :=
  if y ∈ p.2 then pair t p.1 else 0

/-- Sum of the entry contributions over the token index. -/
def entrySum (pair : String → String → Nat) (t y : String) : TokenIndex → Nat
  | [] => 0
  | p :: tl => entryContrib pair t y p + entrySum pair t y tl

/-- Contribution of the +3 exact branch for one query token. -/
def exactContrib (ti : TokenIndex) (t y : String) : Nat :=
  match dget ti t with
  | some ids => if y ∈ ids then 3 else 0
  | none => 0

/-- Total score over a list of query tokens, skipping tokens of length at
most two. -/
def tokTotal (pair : String → String → Nat) (ts : List String) (ti : TokenIndex)
    (y : String) : Nat :=
  match ts with
  | [] => 0
  | t :: tl => (if t.length ≤ 2 then 0 else entrySum pair t y ti) + tokTotal pair tl ti y

/-! Content hasher, translated from `src/index/element_hasher.py`. -/

/-- Fields of a code element that `CodeElementHasher` reads: the dynamic
type name (`type(code_element).__name__`) and the `file_path`,
`start_line`, `end_line` and `name` attributes. -/
structure HElem where
  typeName : String
  file_path : String
  start_line : Nat
  end_line : Nat
  name : String
deriving DecidableEq

/-- Normalized representation dictionary built by
`_create_normalized_representation`: keys `type`, `file_path`,
`line_range`, `name`. -/
structure NormRep where
  type : String
  file_path : String
  line_range : Nat × Nat
  name : String
deriving DecidableEq

/-- Type names routed to type-specific normalisation methods. -/
def typeSpecificNames : List String := ["FunctionElement", "ClassElement", "VariableElement"]

/-- Translated from `CodeElementHasher._create_normalized_representation`:
the common dictionary always contains `type`, `file_path`, `line_range`
(built from `start_line`/`end_line`) and `name`. The three type-specific
branches call `_normalize_function_element` / `_normalize_class_element` /
`_normalize_variable_element`, none of which exist in the 38-line source
file, so those branches raise `AttributeError`, modelled as an error. -/
def _create_normalized_representation (e : HElem) : Except String NormRep :=
  if e.typeName ∈ typeSpecificNames then
    .error "AttributeError: missing type-specific normalizer"
  else
    .ok ⟨e.typeName, e.file_path, (e.start_line, e.end_line), e.name⟩

/-- Translated from `CodeElementHasher.compute_hash`: the canonical JSON
dump with sorted keys is injective on normalized representations, and the
SHA-256 hex digest of it is a fixed fingerprint intended to be
collision-free, so the serialise-then-digest step is modelled as the
identity on the normalized representation: two modelled hashes are equal
exactly when the data fed to the real hash agree. -/
def compute_hash (e : HElem) : Except String NormRep :=
  _create_normalized_representation e

/-! Lazy registry, translated from `src/index/lazy_registry.py`. -/

/-- An element as the registry sees it: its id, the attributes the hasher
reads, and the recorded `element_hash` attribute (`none` models the
attribute being absent, so `getattr(element, "element_hash", None)` is
`None`). -/
structure RElem where
  element_id : String
  helem : HElem
  element_hash : Option NormRep
deriving DecidableEq

structure RegState where
  elements_by_id : List (String × RElem) := []
  elements_by_hash : List (NormRep × RElem) := []
deriving DecidableEq

/-- Outcome of one `get_by_id` call: the returned element, the registry
state afterwards, and the integrity warnings printed along the way. -/
structure GetResult where
  result : Option RElem
  state : RegState
  warnings : List String
deriving DecidableEq

/-- Translated from `LazyLoadedRegistry.get_by_id`: a cached id is returned
as is; otherwise the serializer loads the element, hash validation (when
enabled) prints a non-fatal warning on mismatch, and the element is stored
under its id and hash and returned either way. A raised `AttributeError`
(hash computation on an element with a missing normaliser, or a missing
`element_hash` attribute at the `_elements_by_hash` assignment) is
modelled as `Except.error`. -/
def get_by_id (validate_hashes : Bool) (serializer_load : String → Option RElem)
    (s : RegState) (element_id : String) : Except String GetResult :=
  match dget s.elements_by_id element_id with
  | some e => .ok ⟨some e, s, []⟩
  | none =>
    match serializer_load element_id with
    | none => .ok ⟨none, s, []⟩
    | some e =>
      let warnCheck : Except String (List String) :=
        if validate_hashes then
          match compute_hash e.helem with
          | .error msg => .error msg
          | .ok h =>
            if some h ≠ e.element_hash then .ok ["Hash mismatch for " ++ element_id]
            else .ok []
        else .ok []
      match warnCheck with
      | .error msg => .error msg
      | .ok ws =>
        match e.element_hash with
        | none => .error "AttributeError: element_hash"
        | some hh =>
          .ok ⟨some e,
               ⟨dinsert s.elements_by_id element_id e, dinsert s.elements_by_hash hh e⟩,
               ws⟩

/-! Central store, translated from `src/index/codebase_index.py`
(`CodebaseIndex`, `ElementReference`, `Trie`). Python dicts are modelled
as insertion-ordered association lists, Python sets of ids as
insertion-ordered duplicate-free lists, and the name trie by the set of
(word, element id) pairs inserted into it — the tree of nodes is
determined by exactly this data, and an id is "in the trie" when some node
holds it. -/

inductive EType
  | CLASS
  | FUNCTION
  | METHOD
  | IMPORT
  | MODULE
  | VARIABLE
deriving DecidableEq

/-- Translated from `models.CodeElement` restricted to the fields the index
reads. -/
structure CodeElem where
  name : String
  element_type : EType
  file_path : String
  line_start : Nat
  line_end : Nat
  docstring : Option String := none
  decorators : List String := []
  parent_name : Option String := none
  module_path : String := ""
  search_tokens : List String := []
deriving DecidableEq

/-- Translated from the dataclass `ElementReference`. -/
structure ElemRef where
  element_id : String
  element_type : EType
  name : String
  module_path : String
  file_path : String
  line_range : Nat × Nat
  is_loaded : Bool := false
deriving DecidableEq

/-- Value slot of `CodebaseIndex._elements`:
`Union[CodeElement, ElementReference]`. -/
inductive Stored
  | ref (r : ElemRef)
  | full (e : CodeElem)
deriving DecidableEq

/-- Canonical element id `f"module_path.name"` used throughout
`CodebaseIndex`. -/
def elementId (e : CodeElem) : String := e.module_path ++ "." ++ e.name

/-- Translated from `ElementReference.from_element`. -/
def refFromElement (e : CodeElem) : ElemRef :=
  { element_id := elementId e
    element_type := e.element_type
    name := e.name
    module_path := e.module_path
    file_path := e.file_path
    line_range := (e.line_start, e.line_end)
    is_loaded := false }

/-- Python `set.add` on an insertion-ordered duplicate-free list. -/
def sinsert (s : List String) (x : String) : List String :=
  if x ∈ s then s else s ++ [x]

/-- Python truthiness of an optional string (`None` and the empty string
are falsy). -/
def truthyOpt : Option String → Option String
  | none => none
  | some s => if s = "" then none else some s

/-- Separator split modelling Python `s.split('.')`. -/
def splitOnAux (sep : Char) : List Char → List Char → List String
  | [], acc => [String.mk acc.reverse]
  | c :: cs, acc =>
    if c = sep then String.mk acc.reverse :: splitOnAux sep cs []
    else splitOnAux sep cs (c :: acc)

/-- Python `s.split(sep)` for a single-character separator. -/
def pySplitOn (s : String) (sep : Char) : List String := splitOnAux sep s.data []

/-- Accumulator pass for maximal non-whitespace runs. -/
def wsRunsAux : List Char → List Char → List String
  | [], acc => if acc.isEmpty then [] else [String.mk acc.reverse]
  | c :: cs, acc =>
    if c.isWhitespace then
      (if acc.isEmpty then wsRunsAux cs [] else String.mk acc.reverse :: wsRunsAux cs [])
    else wsRunsAux cs (c :: acc)

/-- Python `s.split()` with no argument: maximal non-whitespace runs. -/
def pySplitWhitespace (s : String) : List String := wsRunsAux s.data []

/-- Translated from `CodeElement.generate_search_tokens`: the lowered name,
the words of the docstring longer than two characters (when the docstring
is truthy), and the dot-separated parts of the module path (when truthy);
the Python set is modelled as first-occurrence deduplication. -/
def generate_search_tokens (e : CodeElem) : List String :=
  ([pyToLower e.name] ++
    (match truthyOpt e.docstring with
     | none => []
     | some d => ((pySplitWhitespace d).filter (fun w => 2 < w.length)).map pyToLower) ++
    (if e.module_path = "" then []
     else (pySplitOn e.module_path '.').map pyToLower)).eraseDups

/-- Trie insertion modelled on the pair list: `Trie.insert` adds the id to
the word's end node's id set, so a pair already present is a no-op. -/
def trieInsert (t : List (String × String)) (word element_id : String) :
    List (String × String) :=
  if (word, element_id) ∈ t then t else t ++ [(word, element_id)]

structure CIndex where
  _elements : List (String × Stored) := []
  _modules : List (String × List String) := []
  _classes : List (String × String) := []
  _functions : List (String × String) := []
  _methods : List (String × List (String × String)) := []
  _file_elements : List (String × List String) := []
  _token_index : List (String × List String) := []
  _name_trie : List (String × String) := []
  _parent_children : List (String × List String) := []
  lazy_loading : Bool := true
  search_index_all : Bool := false
  total_elements : Nat := 0
  loaded_elements : Nat := 0
deriving DecidableEq

/-- Translated from `CodebaseIndex._update_indexes`: module map, the
type-specific class/function/method maps, file map, parent-children map
and the name trie are all updated for the element. -/
def _update_indexes (idx : CIndex) (element_id : String) (e : CodeElem) : CIndex :=
  let idx :=
    if e.module_path ≠ "" then
      let mset := sinsert ((dget idx._modules e.module_path).getD []) element_id
      { idx with _modules := dinsert idx._modules e.module_path mset }
    else idx
  let idx :=
    match e.element_type with
    | .CLASS => { idx with _classes := dinsert idx._classes e.name element_id }
    | .FUNCTION => { idx with _functions := dinsert idx._functions e.name element_id }
    | .METHOD =>
      let idx :=
        match truthyOpt e.parent_name with
        | some p =>
          let parent_id := e.module_path ++ "." ++ p
          let mmap := dinsert ((dget idx._methods parent_id).getD []) e.name element_id
          { idx with _methods := dinsert idx._methods parent_id mmap }
        | none => idx
      { idx with _functions := dinsert idx._functions e.name element_id }
    | _ => idx
  let fset := sinsert ((dget idx._file_elements e.file_path).getD []) element_id
  let idx := { idx with _file_elements := dinsert idx._file_elements e.file_path fset }
  let idx :=
    match truthyOpt e.parent_name with
    | some p =>
      let parent_id := e.module_path ++ "." ++ p
      let pset := sinsert ((dget idx._parent_children parent_id).getD []) element_id
      { idx with _parent_children := dinsert idx._parent_children parent_id pset }
    | none => idx
  { idx with _name_trie := trieInsert idx._name_trie e.name element_id }

/-- Translated from `CodebaseIndex._index_element_for_search`: tokens are
generated when absent, and every token longer than two characters maps to
the element id in the token index. -/
def _index_element_for_search (idx : CIndex) (e : CodeElem) : CIndex :=
  let tokens := if e.search_tokens.isEmpty then generate_search_tokens e else e.search_tokens
  let element_id := elementId e
  let newTokenIndex := tokens.foldl
    (fun ti tok =>
      if 2 < tok.length then dinsert ti tok (sinsert ((dget ti tok).getD []) element_id)
      else ti)
    idx._token_index
  { idx with _token_index := newTokenIndex }

/-- Translated from `CodebaseIndex.add_element`: a duplicate id already
held as a full element is a no-op; a duplicate id held as a reference is
promoted to the full element (updating indexes and the loaded count); a
new id is stored as a reference in lazy mode or as the full element
otherwise (with optional search indexing, whose token generation mutates
the stored element), then all secondary indexes and the total are
updated. -/
def add_element (idx : CIndex) (e : CodeElem) (force_full : Bool := false) : CIndex :=
  let element_id := elementId e
  match dget idx._elements element_id with
  | some (.ref _) =>
    let idx := _update_indexes idx element_id e
    { idx with _elements := dinsert idx._elements element_id (.full e)
               loaded_elements := idx.loaded_elements + 1 }
  | some (.full _) => idx
  | none =>
    let idx :=
      if idx.lazy_loading && !force_full then
        { idx with _elements := dinsert idx._elements element_id (.ref (refFromElement e)) }
      else
        let tokens := if e.search_tokens.isEmpty then generate_search_tokens e
                      else e.search_tokens
        let stored := if idx.search_index_all then { e with search_tokens := tokens } else e
        let idx := { idx with _elements := dinsert idx._elements element_id (.full stored)
                              loaded_elements := idx.loaded_elements + 1 }
        if idx.search_index_all then _index_element_for_search idx e else idx
    let idx := _update_indexes idx element_id e
    { idx with total_elements := idx.total_elements + 1 }

/-- Modelled from the spec: `CodebaseIndex` in `src/index/codebase_index.py`
has no `remove` method (only tests outside the class declare one), while
the specification prescribes `remove(id)`: deletes the canonical entry and
purges all secondary index references to it; no-op if absent. Purging
drops the id from every id set, every name-to-id and method map entry,
every trie pair, and any parent-keyed entry keyed by the id itself. -/
def removeElement (idx : CIndex) (element_id : String) : CIndex :=
  match dget idx._elements element_id with
  | none => idx
  | some st =>
    { idx with
      _elements := idx._elements.filter (fun p => p.1 ≠ element_id)
      _modules := idx._modules.map (fun p => (p.1, p.2.filter (· ≠ element_id)))
      _classes := idx._classes.filter (fun p => p.2 ≠ element_id)
      _functions := idx._functions.filter (fun p => p.2 ≠ element_id)
      _methods := (idx._methods.filter (fun p => p.1 ≠ element_id)).map
        (fun p => (p.1, p.2.filter (fun q => q.2 ≠ element_id)))
      _file_elements := idx._file_elements.map (fun p => (p.1, p.2.filter (· ≠ element_id)))
      _token_index := idx._token_index.map (fun p => (p.1, p.2.filter (· ≠ element_id)))
      _name_trie := idx._name_trie.filter (fun p => p.2 ≠ element_id)
      _parent_children := (idx._parent_children.filter (fun p => p.1 ≠ element_id)).map
        (fun p => (p.1, p.2.filter (· ≠ element_id)))
      total_elements := idx.total_elements - 1
      loaded_elements := match st with
        | .full _ => idx.loaded_elements - 1
        | .ref _ => idx.loaded_elements }

/-- Does any secondary index of the store reference this element id
(name/class/function maps by value, method and parent-children maps by
parent key or member, module/file/token id sets and trie pairs by
membership)? -/
def secondaryContains (idx : CIndex) (i : String) : Prop :=
  (∃ p ∈ idx._modules, i ∈ p.2) ∨
  (∃ p ∈ idx._classes, p.2 = i) ∨
  (∃ p ∈ idx._functions, p.2 = i) ∨
  (∃ p ∈ idx._methods, p.1 = i ∨ ∃ q ∈ p.2, q.2 = i) ∨
  (∃ p ∈ idx._file_elements, i ∈ p.2) ∨
  (∃ p ∈ idx._token_index, i ∈ p.2) ∨
  (∃ p ∈ idx._name_trie, p.2 = i) ∨
  (∃ p ∈ idx._parent_children, p.1 = i ∨ i ∈ p.2)

instance (idx : CIndex) (i : String) : Decidable (secondaryContains idx i) := by
  unfold secondaryContains
  infer_instance

/-! Snapshot persistence, translated from `CodebaseIndex.save_to_file` and
`CodebaseIndex.load_from_file`. The path handling and the pickle byte
encoding are abstracted away: pickling round-trips the structured data
faithfully, so `save_to_file` yields the structured `index_data` and
`load_from_file` consumes it. -/

/-- One serialised `_elements` entry: tagged `reference` or `element`. -/
inductive SnapEntry
  | reference (r : ElemRef)
  | element (d : CodeElem)
deriving DecidableEq

structure IndexData where
  elements : List (String × SnapEntry)
  modules : List (String × List String)
  classes : List (String × String)
  functions : List (String × String)
  methods : List (String × List (String × String))
  file_elements : List (String × List String)
  parent_children : List (String × List String)
  token_index : List (String × List String)
  total_elements : Nat
  loaded_elements : Nat
deriving DecidableEq

/-- Serialisation tag applied to one `_elements` entry by `save_to_file`:
references keep their reference data, full elements their `to_dict`
data. -/
def snapTag : Stored → SnapEntry
  | .ref r => SnapEntry.reference r
  | .full e => SnapEntry.element e

/-- Translated from `CodebaseIndex.save_to_file`: every element entry is
tagged, every secondary map is serialised verbatim (the Python
set-to-list/list-to-set round trips preserve the modelled sets), and both
statistics are recorded. -/
def save_to_file (idx : CIndex) : IndexData :=
  { elements := idx._elements.map (fun p => (p.1, snapTag p.2))
    modules := idx._modules
    classes := idx._classes
    functions := idx._functions
    methods := idx._methods
    file_elements := idx._file_elements
    parent_children := idx._parent_children
    token_index := idx._token_index
    total_elements := idx.total_elements
    loaded_elements := idx.loaded_elements }

/-- Name recorded in a snapshot entry's data dictionary. -/
def snapName : SnapEntry → String
  | .reference r => r.name
  | .element d => d.name

/-- Element-map restoration loop of `load_from_file`: entries tagged
`reference` are rebuilt; entries tagged `element` hit the `pass` branch
and are dropped. -/
def loadElems : List (String × SnapEntry) → List (String × Stored)
  | [] => []
  | p :: tl =>
    match p.2 with
    | .reference r => (p.1, Stored.ref r) :: loadElems tl
    | .element _ => loadElems tl

/-- Translated from `CodebaseIndex.load_from_file`: a fresh index is
filled with the restored references, every secondary map verbatim and the
saved total; `loaded_elements` is set to 0, and the name trie is rebuilt
by inserting the recorded name of every snapshot entry (both tags). -/
def load_from_file (d : IndexData) (lazy_loading : Bool := true) : CIndex :=
  { _elements := loadElems d.elements
    _modules := d.modules
    _classes := d.classes
    _functions := d.functions
    _methods := d.methods
    _file_elements := d.file_elements
    _token_index := d.token_index
    _name_trie := d.elements.foldl (fun t p => trieInsert t (snapName p.2) p.1) []
    _parent_children := d.parent_children
    lazy_loading := lazy_loading
    search_index_all := false
    total_elements := d.total_elements
    loaded_elements := 0 }

/-- Is the stored slot a reference? -/
def Stored.isRef : Stored → Bool
  | .ref _ => true
  | .full _ => false

/-! Memoised name lookup, translated from `CodebaseIndex.get_by_name` with
its `@lru_cache(maxsize=128)` decorator, and from `CodebaseIndex.clear`.
For one index instance the cache is keyed by the `(name, element_type)`
argument pair; the memo lives on the decorated function, so `add_element`
and `clear` never touch it. The memo is modelled most-recently-used
first. -/

/-- Translated from `CodebaseIndex.get_element` restricted to resident
entries: promoting a reference re-parses source through `ASTParser`, which
is outside this model; the memoization theorems exercise stores holding
full elements. -/
def get_element (idx : CIndex) (element_id : String) : Option CodeElem :=
  match dget idx._elements element_id with
  | some (.full e) => some e
  | _ => none

/-- Translated from the body of `CodebaseIndex.get_by_name` (the
computation the `lru_cache` wraps): class lookups through `_classes`,
function/method lookups through `_functions` with a type re-check, and the
untyped variant consulting both maps. -/
def compute_get_by_name (idx : CIndex) (name : String) (element_type : Option EType) :
    List CodeElem :=
  match element_type with
  | some .CLASS =>
    match dget idx._classes name with
    | some i => match get_element idx i with | some e => [e] | none => []
    | none => []
  | some .FUNCTION =>
    match dget idx._functions name with
    | some i =>
      match get_element idx i with
      | some e => if e.element_type = .FUNCTION then [e] else []
      | none => []
    | none => []
  | some .METHOD =>
    match dget idx._functions name with
    | some i =>
      match get_element idx i with
      | some e => if e.element_type = .METHOD then [e] else []
      | none => []
    | none => []
  | some _ => []
  | none =>
    (match dget idx._classes name with
     | some i => match get_element idx i with | some e => [e] | none => []
     | none => []) ++
    (match dget idx._functions name with
     | some i => match get_element idx i with | some e => [e] | none => []
     | none => [])

/-- Index instance together with the `lru_cache` memo attached to its
`get_by_name` method. -/
structure NIndex where
  base : CIndex
  memo : List ((String × Option EType) × List CodeElem) := []

/-- Model of `functools.lru_cache(maxsize=128)` around `get_by_name`: a
hit returns the memoised list and refreshes its recency; a miss computes,
inserts at most-recent position and evicts the least recently used entry
when the cache is full. -/
def get_by_name (s : NIndex) (name : String) (element_type : Option EType) :
    List CodeElem × NIndex :=
  let key := (name, element_type)
  match dget s.memo key with
  | some r => (r, { s with memo := (key, r) :: s.memo.filter (fun p => p.1 ≠ key) })
  | none =>
    let r := compute_get_by_name s.base name element_type
    let m := (key, r) :: s.memo
    (r, { s with memo := if 128 ≤ s.memo.length then m.dropLast else m })

/-- Translated from `CodebaseIndex.clear`: every store structure and both
counters are reset; the `lru_cache` memo of `get_by_name` is not cleared
(the source never calls `cache_clear`). -/
def clearIndex (idx : CIndex) : CIndex :=
  { lazy_loading := idx.lazy_loading, search_index_all := idx.search_index_all }

/-- Store mutations interleaved between name lookups. -/
inductive MutOp
  | add (e : CodeElem) (force_full : Bool)
  | clear

/-- Effect of one mutation on the index instance: the memo is untouched. -/
def applyOp (s : NIndex) : MutOp → NIndex
  | .add e f => { s with base := add_element s.base e f }
  | .clear => { s with base := clearIndex s.base }

/-- Effect of a sequence of mutations. -/
def applyOps (s : NIndex) (ops : List MutOp) : NIndex := ops.foldl applyOp s

/-! Concrete fixtures used by the claim theorems, their witnesses and
counterexamples. -/

/-- Element used by the concrete counterexamples: name "n", no other
attribute set. -/
def e_n : Elem := { eid := 1, name := some "n" }

/-- Element with name "m" and decorator "d". -/
def e_md : Elem := { eid := 2, name := some "m", decorator := some "d" }

/-- Hasher input at lines 10-12. -/
def h_e1 : HElem :=
  { typeName := "CodeElement", file_path := "a.py", start_line := 10, end_line := 12, name := "f" }

/-- Same element moved to lines 20-22; every other field agrees with
`h_e1`. -/
def h_e2 : HElem :=
  { typeName := "CodeElement", file_path := "a.py", start_line := 20, end_line := 22, name := "f" }

/-- Filter tree `Or(decorator == "d", name == "n")`. -/
def c1_filter : PyFilter :=
  .or [.field ⟨"decorator", "d", .exactM⟩, .field ⟨"name", "n", .exactM⟩]

/-- Index holding `e_n` (matches the name disjunct) and `e_md` (matches
the decorator disjunct), with the decorator index entry for "d". -/
def c1_index : QIndex :=
  { _elements := [("m.n", e_n), ("m.m", e_md)]
    decorator_index := [("d", [e_md])] }

/-- Name carried by a stored slot. -/
def storedName : Stored → String
  | .ref r => r.name
  | .full e => e.name

/-- Index used by the snapshot counterexample: one fully stored element. -/
def c6_elem : CodeElem :=
  { name := "a", element_type := .FUNCTION, file_path := "a.py",
    line_start := 1, line_end := 2, module_path := "m" }

/-- Non-lazy index holding `c6_elem` as a full element. -/
def c6_index : CIndex := add_element { lazy_loading := false } c6_elem

/-- Element exercising class, module, file, parent and trie indexes in the
removal witness. -/
def c4_elem : CodeElem :=
  { name := "b", element_type := .CLASS, file_path := "b.py",
    line_start := 1, line_end := 3, module_path := "m", parent_name := some "P",
    docstring := some "does things here" }

/-- Recorded (stale) hash used by the C9 witness. -/
def c9_rec : NormRep := ⟨"CodeElement", "a.py", (99, 99), "f"⟩

/-- Element whose recorded hash disagrees with its freshly computed one. -/
def c9_elem : RElem := { element_id := "m.f", helem := h_e1, element_hash := some c9_rec }

/-- Serializer stub returning `c9_elem` for its id. -/
def c9_ser : String → Option RElem := fun j => if j = "m.f" then some c9_elem else none

/-- Freshly computed hash of `c9_elem`. -/
def c9_hash : NormRep := ⟨"CodeElement", "a.py", (10, 12), "f"⟩

/-- Candidate set entering the residual phase of a plan: the full universe
intersected through the indexed and prefix lookup stages (which invoke no
residual filter). -/
def residEntry (p : ExecutionPlan) (idx : QIndex) : List Elem :=
  intersectLookups idx getPrefixIndexForField p.prefix_lookups
    (intersectLookups idx getIndexForField p.indexed_lookups
      (idx._elements.map Prod.snd).eraseDups)

/-- Plan whose only residual filter is an expensive fuzzy predicate. -/
def c7_plan : ExecutionPlan :=
  { remaining_filters := [.field ⟨"name", "x", .fuzzyM (7 / 10)⟩] }

/-- Empty index: the candidate universe is empty before any residual
filter runs. -/
def c7_index : QIndex := { _elements := [] }

/-- Token index used by the search counterexamples. -/
def c3_ti : TokenIndex := [("abc", ["e1"])]

/-! Shared lemmas about the dictionary and set models. -/

theorem dget_cons_self {κ α : Type} [DecidableEq κ] (k : κ) (v : α) (l : List (κ × α)) :
    dget ((k, v) :: l) k = some v := by
  simp [dget]

theorem dget_map_update {κ α : Type} [DecidableEq κ] (m : List (κ × α)) (k y : κ) (v : α) :
    dget (m.map (fun p => if p.1 = k then (k, v) else p)) y
      = if y = k then (if (dget m k).isSome then some v else none) else dget m y := by
  induction m with
  | nil => simp [dget]
  | cons p tl ih =>
    simp only [List.map_cons]
    by_cases hp : p.1 = k
    · by_cases hy : y = k
      · subst hy
        simp [dget, hp]
      · have h1 : ¬ k = y := fun h => hy h.symm
        have h2 : ¬ p.1 = y := by
          rw [hp]; exact h1
        simp [dget, hp, hy, h1, h2, ih]
    · by_cases hpy : p.1 = y
      · have hyk : ¬ y = k := by
          intro h
          exact hp (by rw [hpy, h])
        simp [dget, hp, hpy, hyk]
      · simp [dget, hp, hpy, ih]

theorem dget_append {κ α : Type} [DecidableEq κ] (l1 l2 : List (κ × α)) (y : κ) :
    dget (l1 ++ l2) y = match dget l1 y with | some v => some v | none => dget l2 y := by
  induction l1 with
  | nil => simp [dget]
  | cons p tl ih =>
    by_cases hp : p.1 = y <;> simp [dget, hp, ih]

theorem dget_dinsert {κ α : Type} [DecidableEq κ] (m : List (κ × α)) (k : κ) (v : α) :
    dget (dinsert m k v) k = some v := by
  unfold dinsert
  split
  · rw [dget_map_update]
    simp_all
  · rw [dget_append]
    split
    · simp_all
    · simp [dget]

theorem dget_eq_none_of_not_mem_keys {κ α : Type} [DecidableEq κ]
    (m : List (κ × α)) (k : κ) (h : k ∉ m.map Prod.fst) :
    dget m k = none := by
  induction m with
  | nil => rfl
  | cons p tl ih =>
    simp only [List.map_cons, List.mem_cons] at h
    push_neg at h
    have h1 : ¬ p.1 = k := fun hh => h.1 hh.symm
    simp [dget, h1, ih h.2]

theorem dget_mem {κ α : Type} [DecidableEq κ] (m : List (κ × α)) (k : κ) (v : α)
    (h : dget m k = some v) : (k, v) ∈ m := by
  induction m with
  | nil => simp [dget] at h
  | cons p tl ih =>
    obtain ⟨a, b⟩ := p
    by_cases hp : a = k
    · subst hp
      simp [dget] at h
      subst h
      exact List.mem_cons_self _ _
    · simp [dget, hp] at h
      exact List.mem_cons_of_mem _ (ih h)

/-! Claim C8. The `And`/`Or`/`Not` laws hold for the combinators of
`filters.py`, but `cli_filters.py`'s `CompositeFilter` returns `True` for
an empty child list before consulting its operator, so an OR combinator
with no children matches everything there. -/

/-- C8 counterexample: `CompositeFilter([], "OR")` is constructed without
error and matches a concrete element, contradicting the claim that an Or
combinator with an empty child list matches no element. -/
theorem or_empty_composite_counterexample :
    CompositeFilter.make [] "OR" = Except.ok (CliFilter.comp [] "OR") ∧
    CliFilter.matches (CliFilter.comp [] "OR") e_n = true := by
  constructor
  · rfl
  · rfl

/-- C8 amended: `AndFilter([])` matches everything, `OrFilter([])` matches
nothing and `NotFilter(NotFilter(F))` is equivalent to `F` (filters.py),
while `CompositeFilter` with an empty child list matches every element
whatever its operator, OR included (the empty-list check precedes the
operator dispatch in cli_filters.py). -/
theorem boolean_combinator_laws_amended :
    (∀ e : Elem, PyFilter.matches (.and []) e = true) ∧
    (∀ e : Elem, PyFilter.matches (.or []) e = false) ∧
    (∀ (F : PyFilter) (e : Elem),
      PyFilter.matches (.not (.not F)) e = PyFilter.matches F e) ∧
    (∀ (e : Elem) (op : String), CliFilter.matches (.comp [] op) e = true) := by
  refine ⟨fun e => rfl, fun e => rfl, fun F e => ?_, fun e op => ?_⟩
  · simp [PyFilter.matches]
  · simp [CliFilter.matches]

/-! Claim C5: invalid regex patterns fail at filter construction, and regex
matching never raises a compilation error mid-scan. -/

/-- C5: for any pattern rejected by the compilation model, constructing a
regex `AttributeFilter` on it errors immediately (before any element is
scanned), and `RegexStrategy.matches` on the same pattern returns `false`
for every field value instead of raising. -/
theorem invalid_regex_fails_at_construction (a v p : String) (h : re_compile p = none) :
    AttributeFilter.make a p MatchType.regexT
        = Except.error ("Invalid regex pattern: " ++ p) ∧
    regexStrategyMatches v p = false := by
  constructor
  · simp [AttributeFilter.make, h]
  · simp [regexStrategyMatches, h]

/-- C5 witness: the unbalanced pattern "(" is rejected at construction and
matched as `false` by the regex strategy. -/
theorem invalid_regex_fails_at_construction_witness :
    re_compile "(" = none ∧
    (AttributeFilter.make "name" "(" MatchType.regexT
        = Except.error ("Invalid regex pattern: " ++ "(") ∧
     regexStrategyMatches "x" "(" = false) :=
  ⟨by decide, invalid_regex_fails_at_construction "name" "x" "(" (by decide)⟩

/-! Claim C2. The hasher feeds `line_range` (and `file_path`) into the
normalized representation, so two elements differing only in their line
numbers hash differently — the code contradicts the specification's
requirement that volatile line numbers never enter the content hash. -/

/-- C2 evaluated at the failing input: the two elements agree on name, type
and file path and differ only in line numbers, yet their content hashes
differ, because `_create_normalized_representation` includes
`line_range`. -/
theorem content_hash_includes_line_numbers :
    h_e1.name = h_e2.name ∧ h_e1.typeName = h_e2.typeName ∧
    h_e1.file_path = h_e2.file_path ∧ h_e1.start_line ≠ h_e2.start_line ∧
    compute_hash h_e1 ≠ compute_hash h_e2 := by
  refine ⟨rfl, rfl, rfl, by decide, ?_⟩
  intro hcontra
  rw [show compute_hash h_e1 = Except.ok ⟨"CodeElement", "a.py", (10, 12), "f"⟩ from rfl,
      show compute_hash h_e2 = Except.ok ⟨"CodeElement", "a.py", (20, 22), "f"⟩ from rfl]
    at hcontra
  simp at hcontra

/-! Claim C1. The optimizer recurses into `OrFilter` when extracting
indexed lookups and the execution plan intersects with every extracted
lookup, so a disjunct becomes a conjunct: the optimized plan is not
equivalent to naive matching. -/

/-- C1 evaluated at the failing input: naive matching returns both
elements, but the plan extracts the decorator disjunct as an indexed
lookup, intersects the candidates down to `e_md`, then applies the name
disjunct as a residual filter and returns nothing. -/
theorem optimizer_or_splitting_bug :
    (create_execution_plan c1_filter).execute c1_index = [] ∧
    naiveQuery c1_filter c1_index = [e_n, e_md] := by
  constructor
  · decide
  · decide

/-! Claim C6. Loading a snapshot drops every entry tagged `element` (the
restoration loop's `pass` branch) and resets `loaded_elements` to 0, so
the round trip does not restore the full element map or both statistics;
the secondary maps, the total and the trie reconstruction do behave as
specified. -/

/-- Restoring the mapped entries recovers exactly the reference-tagged
ones. -/
theorem loadElems_save (l : List (String × Stored)) :
    loadElems (l.map (fun p => (p.1, snapTag p.2))) = l.filter (fun p => p.2.isRef) := by
  induction l with
  | nil => rfl
  | cons p tl ih =>
    obtain ⟨k, st⟩ := p
    cases st <;> simp_all [snapTag, loadElems, Stored.isRef, List.filter_cons]

/-- The trie rebuild over tagged entries inserts the stored names. -/
theorem trie_rebuild (l : List (String × Stored)) (acc : List (String × String)) :
    (l.map (fun p => (p.1, snapTag p.2))).foldl (fun t p => trieInsert t (snapName p.2) p.1) acc
      = l.foldl (fun t p => trieInsert t (storedName p.2) p.1) acc := by
  induction l generalizing acc with
  | nil => rfl
  | cons p tl ih =>
    obtain ⟨k, st⟩ := p
    cases st <;> simp_all [snapTag, snapName, storedName]

/-- C6 counterexample: the index holds one full element and
`loaded_elements = 1`, but after `save` then `load` the element map is
empty and `loaded_elements` is 0 — the snapshot round trip does not
restore the full element map nor that statistic. -/
theorem snapshot_roundtrip_counterexample :
    c6_index._elements = [("m.a", Stored.full c6_elem)] ∧
    c6_index.loaded_elements = 1 ∧
    (load_from_file (save_to_file c6_index) true)._elements = [] ∧
    (load_from_file (save_to_file c6_index) true).loaded_elements = 0 := by
  refine ⟨by decide, by decide, by decide, by decide⟩

/-- C6 amended: `save` then `load` restores the reference-tagged entries of
the element map (full-tagged entries are dropped), every secondary index
map and `total_elements` verbatim, resets `loaded_elements` to 0, and
rebuilds the name trie from the recorded names of all snapshot entries;
nothing is re-parsed. -/
theorem snapshot_roundtrip_amended (idx : CIndex) (lazy : Bool) :
    (load_from_file (save_to_file idx) lazy)._elements
        = idx._elements.filter (fun p => p.2.isRef) ∧
    (load_from_file (save_to_file idx) lazy)._modules = idx._modules ∧
    (load_from_file (save_to_file idx) lazy)._classes = idx._classes ∧
    (load_from_file (save_to_file idx) lazy)._functions = idx._functions ∧
    (load_from_file (save_to_file idx) lazy)._methods = idx._methods ∧
    (load_from_file (save_to_file idx) lazy)._file_elements = idx._file_elements ∧
    (load_from_file (save_to_file idx) lazy)._parent_children = idx._parent_children ∧
    (load_from_file (save_to_file idx) lazy)._token_index = idx._token_index ∧
    (load_from_file (save_to_file idx) lazy).total_elements = idx.total_elements ∧
    (load_from_file (save_to_file idx) lazy).loaded_elements = 0 ∧
    (load_from_file (save_to_file idx) lazy)._name_trie
        = idx._elements.foldl (fun t p => trieInsert t (storedName p.2) p.1) [] := by
  refine ⟨?_, rfl, rfl, rfl, rfl, rfl, rfl, rfl, rfl, rfl, ?_⟩
  · simpa [load_from_file, save_to_file] using loadElems_save idx._elements
  · simpa [load_from_file, save_to_file] using trie_rebuild idx._elements []

/-! Claim C4: the spec-modelled `remove` purges every secondary index. -/

/-- Updating the secondary indexes never touches the canonical element
map. -/
theorem update_indexes_elements (idx : CIndex) (i : String) (e : CodeElem) :
    (_update_indexes idx i e)._elements = idx._elements := by
  unfold _update_indexes
  cases e.element_type <;> cases truthyOpt e.parent_name <;>
    by_cases h : e.module_path ≠ "" <;> simp [h]

/-- Search indexing never touches the canonical element map. -/
theorem index_search_elements (idx : CIndex) (e : CodeElem) :
    (_index_element_for_search idx e)._elements = idx._elements := by
  simp [_index_element_for_search]

/-- After any `add_element`, the element's id is canonically present. -/
theorem add_element_mem (idx : CIndex) (e : CodeElem) (force : Bool) :
    (dget (add_element idx e force)._elements (elementId e)).isSome := by
  unfold add_element
  cases h : dget idx._elements (elementId e) with
  | some st =>
    cases st with
    | ref r => simp [h, update_indexes_elements, dget_dinsert]
    | full fe => simp [h]
  | none =>
    simp only [h]
    by_cases hl : (idx.lazy_loading && !force) = true
    · simp [hl, update_indexes_elements, dget_dinsert]
    · by_cases hs : idx.search_index_all = true
      · simp [hl, hs, update_indexes_elements, index_search_elements, dget_dinsert]
      · simp [hl, hs, update_indexes_elements, dget_dinsert]

/-- Removing a present id leaves no secondary index reference to it. -/
theorem remove_purges (idx : CIndex) (i : String)
    (h : (dget idx._elements i).isSome) :
    ¬ secondaryContains (removeElement idx i) i := by
  rw [Option.isSome_iff_exists] at h
  obtain ⟨st, hst⟩ := h
  unfold removeElement
  rw [hst]
  intro hc
  simp only [secondaryContains, List.mem_map, List.mem_filter] at hc
  rcases hc with h | h | h | h | h | h | h | h
  · obtain ⟨p, ⟨q, hq, rfl⟩, him⟩ := h
    simp [List.mem_filter] at him
  · obtain ⟨p, hp, hpi⟩ := h
    simp_all
  · obtain ⟨p, hp, hpi⟩ := h
    simp_all
  · obtain ⟨p, ⟨q, hq, rfl⟩, hpi⟩ := h
    rcases hpi with h1 | ⟨r, hr, hri⟩
    · simp [List.mem_filter] at hq
      exact absurd h1 hq.2
    · simp [List.mem_filter] at hr
      exact absurd hri hr.2
  · obtain ⟨p, ⟨q, hq, rfl⟩, him⟩ := h
    simp [List.mem_filter] at him
  · obtain ⟨p, ⟨q, hq, rfl⟩, him⟩ := h
    simp [List.mem_filter] at him
  · obtain ⟨p, hp, hpi⟩ := h
    simp_all
  · obtain ⟨p, ⟨q, hq, rfl⟩, hpi⟩ := h
    rcases hpi with h1 | h1
    · simp [List.mem_filter] at hq
      exact absurd h1 hq.2
    · simp [List.mem_filter] at h1

/-- C4 (spec-modelled `remove`): after `add(e)` then `remove(e.id)`, no
secondary index — module, class, function, method, file, token, trie,
parent-children — contains `e`'s id; and `remove` of an absent id is a
no-op. -/
theorem remove_purges_secondary_indexes :
    (∀ (idx : CIndex) (e : CodeElem) (force : Bool),
      ¬ secondaryContains (removeElement (add_element idx e force) (elementId e))
          (elementId e)) ∧
    (∀ (idx : CIndex) (i : String), dget idx._elements i = none → removeElement idx i = idx) := by
  constructor
  · intro idx e force
    exact remove_purges _ _ (add_element_mem idx e force)
  · intro idx i h
    unfold removeElement
    rw [h]

/-- C4 witness: concrete add-then-remove leaves no secondary reference, and
removing an unknown id from the empty index is a no-op. -/
theorem remove_purges_secondary_indexes_witness :
    (¬ secondaryContains (removeElement (add_element {} c4_elem true) (elementId c4_elem))
        (elementId c4_elem)) ∧
    dget ({} : CIndex)._elements "zz" = none ∧
    removeElement {} "zz" = {} :=
  ⟨remove_purges_secondary_indexes.1 {} c4_elem true, by decide,
   remove_purges_secondary_indexes.2 {} "zz" (by decide)⟩

/-! Claim C9: a content-hash mismatch on lazy load warns and still returns
and stores the freshly loaded element. -/

/-- C9: when validation is enabled and the freshly computed hash differs
from the recorded one, `get_by_id` succeeds, emits exactly the non-fatal
mismatch warning, stores the element under its id (and recorded hash) and
returns it. -/
theorem hash_mismatch_warn_and_use (ser : String → Option RElem) (s : RegState)
    (i : String) (e : RElem) (h h' : NormRep)
    (hid : dget s.elements_by_id i = none) (hser : ser i = some e)
    (hcomp : compute_hash e.helem = Except.ok h) (hrec : e.element_hash = some h')
    (hne : h ≠ h') :
    get_by_id true ser s i =
      Except.ok ⟨some e,
        ⟨dinsert s.elements_by_id i e, dinsert s.elements_by_hash h' e⟩,
        ["Hash mismatch for " ++ i]⟩ ∧
    dget (dinsert s.elements_by_id i e) i = some e := by
  constructor
  · have hcond : some h ≠ e.element_hash := by
      rw [hrec]
      intro hcc
      exact hne (Option.some.inj hcc)
    simp [get_by_id, hid, hser, hcomp, hrec, hcond, hne]
  · exact dget_dinsert _ _ _

/-- C9 witness: the mismatch scenario evaluated at a concrete registry. -/
theorem hash_mismatch_warn_and_use_witness :
    compute_hash c9_elem.helem = Except.ok c9_hash ∧
    c9_hash ≠ c9_rec ∧
    (get_by_id true c9_ser {} "m.f" =
      Except.ok ⟨some c9_elem,
        ⟨dinsert ({} : RegState).elements_by_id "m.f" c9_elem,
         dinsert ({} : RegState).elements_by_hash c9_rec c9_elem⟩,
        ["Hash mismatch for " ++ "m.f"]⟩ ∧
     dget (dinsert ({} : RegState).elements_by_id "m.f" c9_elem) "m.f" = some c9_elem) :=
  ⟨rfl, by decide,
   hash_mismatch_warn_and_use c9_ser {} "m.f" c9_elem c9_hash c9_rec rfl rfl rfl rfl
     (by decide)⟩

/-! Claim C10: the `lru_cache` memo on `get_by_name` survives store
mutation, so repeated lookups return the previously computed (possibly
stale) list. -/

/-- Store mutations never touch the memo attached to `get_by_name`. -/
theorem applyOps_memo (s : NIndex) (ops : List MutOp) : (applyOps s ops).memo = s.memo := by
  induction ops generalizing s with
  | nil => rfl
  | cons op tl ih =>
    have h1 : applyOps s (op :: tl) = applyOps (applyOp s op) tl := rfl
    rw [h1, ih]
    cases op <;> rfl

/-- After any `get_by_name` call its argument pair is memoised with the
returned list. -/
theorem get_by_name_memo_hit (s : NIndex) (n : String) (t : Option EType) :
    dget (get_by_name s n t).2.memo (n, t) = some (get_by_name s n t).1 := by
  unfold get_by_name
  cases h : dget s.memo (n, t) with
  | some r => simp [h, dget]
  | none =>
    simp only [h]
    by_cases hl : 128 ≤ s.memo.length
    · cases hm : s.memo with
      | nil =>
        rw [hm] at hl
        simp at hl
      | cons a tlm =>
        rw [hm] at hl
        simp only [List.length_cons] at hl
        have hc : 127 ≤ tlm.length := by omega
        simp [hm, hc, dget]
    · simp [hl, dget]

/-- C10: once `get_by_name(name, type)` has been called, any later call
with equal arguments returns the previously computed list, even after an
arbitrary sequence of `add_element`/`clear` mutations in between — name
lookups can therefore serve stale results after mutation. -/
theorem get_by_name_memoization_stale (s : NIndex) (n : String) (t : Option EType)
    (ops : List MutOp) :
    (get_by_name (applyOps (get_by_name s n t).2 ops) n t).1 = (get_by_name s n t).1 := by
  have h2 : dget (applyOps (get_by_name s n t).2 ops).memo (n, t)
      = some (get_by_name s n t).1 := by
    rw [applyOps_memo]
    exact get_by_name_memo_hit s n t
  conv_lhs => rw [get_by_name]
  rw [h2]

/-! Claim C7: the execution plan short-circuits on an empty candidate set,
and no later residual filter's `matches` is ever invoked. -/

/-- The instrumented residual loop computes the same result as the plain
one. -/
theorem applyResidualsInstr_fst (fs : List PyFilter) (cs : List Elem) (i : Nat) :
    (applyResidualsInstr (fs.map PyFilter.matches) cs i).1 = applyResiduals fs cs := by
  induction fs generalizing cs i with
  | nil => rfl
  | cons f tl ih =>
    by_cases hc : cs.filter (fun e => f.matches e) = []
    · simp [applyResidualsInstr, applyResiduals, hc]
    · simp [applyResidualsInstr, applyResiduals, hc, ih]

/-- When the candidate set entering residual filter `k` is empty, the
instrumented loop returns the empty result and logs no invocation of
filter `k` or any later filter. -/
theorem instr_short_circuit (ps : List (Elem → Bool)) (cs : List Elem) (i k : Nat)
    (h : residCandsAt ps cs k = []) :
    (applyResidualsInstr ps cs i).1 = [] ∧
    ∀ q ∈ (applyResidualsInstr ps cs i).2, q.1 < i + k := by
  induction ps generalizing cs i k with
  | nil =>
    have hcs : cs = [] := by simpa [residCandsAt] using h
    subst hcs
    simp [applyResidualsInstr]
  | cons p tl ih =>
    cases k with
    | zero =>
      have hcs : cs = [] := by simpa [residCandsAt] using h
      subst hcs
      simp [applyResidualsInstr]
    | succ k' =>
      have h' : residCandsAt tl (cs.filter p) k' = [] := by
        simpa [residCandsAt] using h
      by_cases hc : cs.filter p = []
      · refine ⟨by simp [applyResidualsInstr, hc], ?_⟩
        intro q hq
        simp only [applyResidualsInstr, hc, if_pos, List.mem_map] at hq
        obtain ⟨x, hx, rfl⟩ := hq
        simp
      · obtain ⟨r1, r2⟩ := ih (cs.filter p) (i + 1) k' h'
        refine ⟨by simp [applyResidualsInstr, hc, r1], ?_⟩
        intro q hq
        simp only [applyResidualsInstr, hc, List.mem_append, List.mem_map,
          if_neg, not_false_iff] at hq
        rcases hq with ⟨x, hx, rfl⟩ | hq2
        · simp
        · have := r2 q hq2
          omega

/-- C7: for every plan and index, if the candidate set entering residual
stage `k` is empty (for `k = 0` this covers emptiness produced by the
indexed or prefix lookup stages; for larger `k`, emptiness produced by a
residual filter pass), execution returns the empty result and the
instrumented run records no `matches` invocation by residual filter `k` or
any later one — in particular an expensive Fuzzy or Regex residual is
never invoked. -/
theorem short_circuit_no_later_matches (plan : ExecutionPlan) (idx : QIndex) (k : Nat)
    (h : residCandsAt (plan.remaining_filters.map PyFilter.matches)
          (residEntry plan idx) k = []) :
    (plan.executeInstr idx).1 = [] ∧
    plan.execute idx = [] ∧
    ∀ q ∈ (plan.executeInstr idx).2, q.1 < k := by
  have heq : plan.executeInstr idx
      = applyResidualsInstr (plan.remaining_filters.map PyFilter.matches)
          (residEntry plan idx) 0 := rfl
  have hmain := instr_short_circuit (plan.remaining_filters.map PyFilter.matches)
    (residEntry plan idx) 0 k h
  have hfst := applyResidualsInstr_fst plan.remaining_filters (residEntry plan idx) 0
  have hexec : plan.execute idx = applyResiduals plan.remaining_filters (residEntry plan idx) :=
    rfl
  refine ⟨?_, ?_, ?_⟩
  · rw [heq]
    exact hmain.1
  · rw [hexec, ← hfst, ← heq]
    rw [heq]
    exact hmain.1
  · intro q hq
    rw [heq] at hq
    have := hmain.2 q hq
    omega

/-- C7 witness: with an empty candidate set entering the residual phase,
execution returns nothing and the fuzzy residual filter is never
invoked. -/
theorem short_circuit_no_later_matches_witness :
    residCandsAt (c7_plan.remaining_filters.map PyFilter.matches)
        (residEntry c7_plan c7_index) 0 = [] ∧
    ((c7_plan.executeInstr c7_index).1 = [] ∧
     c7_plan.execute c7_index = [] ∧
     ∀ q ∈ (c7_plan.executeInstr c7_index).2, q.1 < 0) :=
  ⟨by decide, short_circuit_no_later_matches c7_plan c7_index 0 (by decide)⟩

/-! Claim C3. The search scoring is as claimed for strict prefixes (+2)
and non-prefix substrings (+1), but a query token equal to an indexed
token scores the +3 exact bonus and also +2 from the prefix branch, so an
exact match contributes 5, not 3. Results are sorted by descending
score. -/

theorem charsStartWith_self (l : List Char) : charsStartWith l l = true := by
  induction l with
  | nil => rfl
  | cons c tl ih => simp [charsStartWith, ih]

theorem pyStartsWith_self (s : String) : pyStartsWith s s = true :=
  charsStartWith_self _

/-- Lookup through the in-place score update of `bump`. -/
theorem dget_bump_map (sc : List (String × Nat)) (x y : String) (n : Nat) :
    dget (sc.map (fun p => if p.1 = x then (p.1, p.2 + n) else p)) y
      = (dget sc y).map (fun v => if y = x then v + n else v) := by
  induction sc with
  | nil => simp [dget]
  | cons p tl ih =>
    by_cases hp : p.1 = x
    · by_cases hpy : p.1 = y
      · have hyx : y = x := by rw [← hpy]; exact hp
        simp [dget, hp, hpy, hyx]
      · have hxy : ¬ x = y := fun h => hpy (hp.trans h)
        simp [dget, hp, hpy, hxy, ih]
    · by_cases hpy : p.1 = y
      · have hyx : ¬ y = x := by rw [← hpy]; exact hp
        simp [dget, hp, hpy, hyx]
      · simp [dget, hp, hpy, ih]

/-- One `scores[x] += n` raises exactly `x`'s score by `n`. -/
theorem sval_bump (sc : List (String × Nat)) (x y : String) (n : Nat) :
    sval (bump sc x n) y = sval sc y + (if y = x then n else 0) := by
  unfold bump sval
  by_cases hx : (dget sc x).isSome
  · rw [if_pos hx, dget_bump_map]
    by_cases hy : y = x
    · subst hy
      obtain ⟨v, hv⟩ := Option.isSome_iff_exists.mp hx
      simp [hv]
    · cases hdy : dget sc y <;> simp [hy, hdy]
  · rw [if_neg hx, dget_append]
    by_cases hy : y = x
    · subst hy
      have hnone : dget sc y = none := Option.not_isSome_iff_eq_none.mp hx
      simp [hnone, dget]
    · have hxy : ¬ x = y := fun h => hy h.symm
      cases hdy : dget sc y <;> simp [hdy, hy, dget, hxy]

/-- Bumping a duplicate-free id set raises a member's score by `n` once. -/
theorem sval_bumpAll (sc : List (String × Nat)) (ids : List String) (n : Nat) (y : String)
    (hnd : ids.Nodup) :
    sval (bumpAll sc ids n) y = sval sc y + (if y ∈ ids then n else 0) := by
  induction ids generalizing sc with
  | nil => simp [bumpAll]
  | cons x tl ih =>
    have hx : x ∉ tl := (List.nodup_cons.mp hnd).1
    have hnd' := (List.nodup_cons.mp hnd).2
    have hstep : bumpAll sc (x :: tl) n = bumpAll (bump sc x n) tl n := rfl
    rw [hstep, ih _ hnd', sval_bump]
    by_cases hy : y = x
    · subst hy
      simp [hx]
    · simp [List.mem_cons, hy]

/-- The prefix/substring pass adds each entry's loop contribution. -/
theorem sval_scoreLoop (t : String) (ti : TokenIndex) (sc : List (String × Nat)) (y : String)
    (hnd : ∀ p ∈ ti, p.2.Nodup) :
    sval (scoreLoop t ti sc) y = sval sc y + entrySum loopPair t y ti := by
  induction ti generalizing sc with
  | nil => simp [scoreLoop, entrySum]
  | cons p tl ih =>
    have hp : p.2.Nodup := hnd p (List.mem_cons_self _ _)
    have htl : ∀ q ∈ tl, q.2.Nodup := fun q hq => hnd q (List.mem_cons_of_mem _ hq)
    have hstep : scoreLoop t (p :: tl) sc
        = scoreLoop t tl
            (if pyStartsWith p.1 t then bumpAll sc p.2 2
             else if pyContains p.1 t then bumpAll sc p.2 1
             else sc) := rfl
    rw [hstep]
    by_cases h2 : pyStartsWith p.1 t
    · rw [if_pos h2, ih _ htl, sval_bumpAll _ _ _ _ hp]
      simp [entrySum, entryContrib, loopPair, h2]
      omega
    · by_cases h1 : pyContains p.1 t
      · rw [if_neg h2, if_pos h1, ih _ htl, sval_bumpAll _ _ _ _ hp]
        simp [entrySum, entryContrib, loopPair, h2, h1]
        omega
      · rw [if_neg h2, if_neg h1, ih _ htl]
        simp [entrySum, entryContrib, loopPair, h2, h1]

/-- One query token adds its exact bonus plus the loop contributions. -/
theorem sval_scoreToken (ti : TokenIndex) (sc : List (String × Nat)) (t y : String)
    (hnd : ∀ p ∈ ti, p.2.Nodup) :
    sval (scoreToken ti sc t) y
      = sval sc y + exactContrib ti t y + entrySum loopPair t y ti := by
  unfold scoreToken
  cases hdt : dget ti t with
  | some ids =>
    have hids : ids.Nodup := hnd _ (dget_mem _ _ _ hdt)
    rw [sval_scoreLoop _ _ _ _ hnd, sval_bumpAll _ _ _ _ hids]
    simp [exactContrib, hdt]
  | none =>
    rw [sval_scoreLoop _ _ _ _ hnd]
    simp [exactContrib, hdt]

/-- With unique index keys, exact bonus plus loop contributions equal the
amended per-pair sum: 5 for an equal token, 2 for a strict prefix, 1 for a
non-prefix substring. -/
theorem exact_loop_eq_codeSum (ti : TokenIndex) (t y : String)
    (hkeys : (ti.map Prod.fst).Nodup) :
    exactContrib ti t y + entrySum loopPair t y ti = entrySum codePairScore t y ti := by
  induction ti with
  | nil => simp [exactContrib, entrySum, dget]
  | cons p tl ih =>
    obtain ⟨k, ids⟩ := p
    have hk : k ∉ tl.map Prod.fst := (List.nodup_cons.mp hkeys).1
    have htl := (List.nodup_cons.mp hkeys).2
    by_cases hpt : k = t
    · subst hpt
      have hnone : dget tl k = none := dget_eq_none_of_not_mem_keys _ _ hk
      have hloop2 : loopPair k k = 2 := by
        simp [loopPair, pyStartsWith_self]
      have hcode5 : codePairScore k k = 5 := by
        simp [codePairScore]
      have htail : entrySum loopPair k y tl = entrySum codePairScore k y tl := by
        have hih := ih htl
        simpa [exactContrib, hnone] using hih
      simp only [exactContrib, entrySum, entryContrib, dget, if_pos rfl]
      rw [hloop2, hcode5, htail]
      by_cases hy : y ∈ ids <;> simp [hy] <;> omega
    · have hstep : exactContrib ((k, ids) :: tl) t y = exactContrib tl t y := by
        simp [exactContrib, dget, hpt]
      have hpair : loopPair t k = codePairScore t k := by
        simp [loopPair, codePairScore, hpt]
      have hih := ih htl
      simp only [entrySum, entryContrib, hstep]
      rw [hpair]
      omega

/-- Folding the scoring over the query tokens accumulates the amended
per-pair totals. -/
theorem sval_searchScores_aux (ts : List String) (ti : TokenIndex)
    (sc : List (String × Nat)) (y : String)
    (hnd : ∀ p ∈ ti, p.2.Nodup) (hkeys : (ti.map Prod.fst).Nodup) :
    sval (ts.foldl (fun sc t => if t.length ≤ 2 then sc else scoreToken ti sc t) sc) y
      = sval sc y + tokTotal codePairScore ts ti y := by
  induction ts generalizing sc with
  | nil => simp [tokTotal]
  | cons t tl ih =>
    by_cases hlen : t.length ≤ 2
    · simp only [List.foldl_cons, if_pos hlen]
      rw [ih]
      simp [tokTotal, hlen]
    · simp only [List.foldl_cons, if_neg hlen]
      rw [ih, sval_scoreToken _ _ _ _ hnd]
      have hcs := exact_loop_eq_codeSum ti t y hkeys
      simp [tokTotal, hlen]
      omega

/-- The inner token-index fold of `pairScoreSum` is the entry sum. -/
theorem foldl_entry_add (pair : String → String → Nat) (t y : String) (ti : TokenIndex)
    (a : Nat) :
    ti.foldl (fun acc p => acc + (if y ∈ p.2 then pair t p.1 else 0)) a
      = a + entrySum pair t y ti := by
  induction ti generalizing a with
  | nil => simp [entrySum]
  | cons p tl ih =>
    simp [entrySum, entryContrib, ih]
    omega

/-- The outer fold of `pairScoreSum` is the token total. -/
theorem pairScoreSum_eq_tokTotal (pair : String → String → Nat) (ts : List String)
    (ti : TokenIndex) (y : String) :
    pairScoreSum pair ts ti y = tokTotal pair ts ti y := by
  unfold pairScoreSum
  suffices hgen : ∀ a : Nat,
      (ts.filter (fun t => 2 < t.length)).foldl
        (fun acc t => acc + (ti.foldl (fun b p => b + (if y ∈ p.2 then pair t p.1 else 0)) 0))
        a
      = a + tokTotal pair ts ti y by
    simpa using hgen 0
  induction ts with
  | nil => intro a; simp [tokTotal]
  | cons t tl ih =>
    intro a
    by_cases hlen : 2 < t.length
    · have hskip : ¬ t.length ≤ 2 := by omega
      have hdec : decide (2 < t.length) = true := decide_eq_true hlen
      simp only [List.filter_cons, hdec, if_true, List.foldl_cons]
      rw [ih, foldl_entry_add]
      simp [tokTotal, hskip]
      omega
    · have hskip : t.length ≤ 2 := by omega
      have hdec : decide (2 < t.length) = false := decide_eq_false hlen
      simp only [List.filter_cons, hdec, Bool.false_eq_true, if_false]
      rw [ih]
      simp [tokTotal, hskip]

/-- C3 counterexample: for the query "abc" against an index entry "abc"
listing element "e1", the code assigns score 5 (the +3 exact bonus plus
+2 from the prefix branch), while the claimed rule assigns exactly 3. -/
theorem search_exact_score_counterexample :
    sval (searchScores "abc" c3_ti) "e1" = 5 ∧
    pairScoreSum claimPairScore (pyTokens "abc") c3_ti "e1" = 3 ∧
    sval (searchScores "abc" c3_ti) "e1"
      ≠ pairScoreSum claimPairScore (pyTokens "abc") c3_ti "e1" := by
  refine ⟨by decide, by decide, by decide⟩

/-- C3 amended: for every query, every token index with unique keys and
duplicate-free id sets, and every element id, the computed score is the
sum over query tokens (longer than two characters) and index entries
listing the element of: 5 when the query token equals the indexed token,
2 when it is a strict prefix of it, 1 when it is a substring but not a
prefix; and the result ids are ordered by descending score. -/
theorem search_scoring_amended (q : String) (ti : TokenIndex) (x : String)
    (hkeys : (ti.map Prod.fst).Nodup) (hnd : ∀ p ∈ ti, p.2.Nodup) :
    sval (searchScores q ti) x = pairScoreSum codePairScore (pyTokens q) ti x ∧
    List.Sorted (fun a b => sval (searchScores q ti) b ≤ sval (searchScores q ti) a)
      (searchSortedIds q ti) := by
  constructor
  · unfold searchScores
    rw [sval_searchScores_aux _ _ _ _ hnd hkeys, pairScoreSum_eq_tokTotal]
    simp [sval, dget]
  · unfold searchSortedIds
    haveI h1 : IsTotal String
        (fun a b => sval (searchScores q ti) b ≤ sval (searchScores q ti) a) :=
      ⟨fun a b => Nat.le_total _ _⟩
    haveI h2 : IsTrans String
        (fun a b => sval (searchScores q ti) b ≤ sval (searchScores q ti) a) :=
      ⟨fun a b c hab hbc => Nat.le_trans hbc hab⟩
    exact List.sorted_insertionSort _ _

/-- C3 witness: the amended scoring evaluated on the concrete index. -/
theorem search_scoring_amended_witness :
    ((c3_ti.map Prod.fst).Nodup ∧ (∀ p ∈ c3_ti, p.2.Nodup)) ∧
    (sval (searchScores "abc" c3_ti) "e1"
        = pairScoreSum codePairScore (pyTokens "abc") c3_ti "e1" ∧
     List.Sorted
       (fun a b => sval (searchScores "abc" c3_ti) b ≤ sval (searchScores "abc" c3_ti) a)
       (searchSortedIds "abc" c3_ti)) :=
  ⟨⟨by decide, by decide⟩,
   search_scoring_amended "abc" c3_ti "e1" (by decide) (by decide)⟩

end Spec2Proof
